import Mathlib

/-!
Verification of the pgx extended query builder and the pgtype bool, float8 and
timestamptz codecs (src/extended_query_builder.go).

Modelling conventions:
- byte slices are `List Nat` with each entry below 256;
- `time.Time` values are the integer number of nanoseconds since the Unix
  epoch (`Int`); Go `Unix()` is floor division by 1e9 and `Nanosecond()` the
  corresponding nonnegative remainder, which matches the internal Go
  representation (sec plus nsec in [0, 1e9));
- float64 values are represented by their IEEE-754 bit patterns (`Nat`);
- int64 overflow in Go wraps two-complement; `wrap64` models the wrap;
- Go scan plans mutate their target through a pointer and return an error;
  they are modelled as pure functions returning the pair
  (new target value, optional error message), with the error branches
  returning the target unchanged exactly as the Go code returns before
  writing;
- encode plans return `.ok none` for the Go return `(nil, nil)` (SQL NULL)
  and `.ok (some buf2)` for a grown buffer.
-/

/-- Big-endian byte decomposition of a value below 2^64, as written by
binary.BigEndian.PutUint64 (used by pgio.AppendUint64 and pgio.AppendInt64). -/
def toBytesBE8 (m : Nat) : List Nat :=
  [m / 72057594037927936 % 256, m / 281474976710656 % 256, m / 1099511627776 % 256,
   m / 4294967296 % 256, m / 16777216 % 256, m / 65536 % 256, m / 256 % 256, m % 256]

/-- binary.BigEndian.Uint64: big-endian read of a byte slice (the callers
check the length 8 before calling it). -/
def beUint64 (l : List Nat) : Nat :=
  l.foldl (fun acc b => acc * 256 + b) 0

/-- Go conversion int64(u) of a uint64 value u: reinterpret the bit pattern
in two-complement. -/
def toInt64 (n : Nat) : Int :=
  if n < 9223372036854775808 then (n : Int) else (n : Int) - 18446744073709551616

/-- Go conversion uint64(x) of an int64 value x: reduce modulo 2^64. -/
def toUint64 (x : Int) : Nat :=
  (x % 18446744073709551616).toNat

/-- Go two-complement int64 wrap-around, applied to every arithmetic step
the Go source performs on int64 operands. -/
def wrap64 (x : Int) : Int :=
  (x + 9223372036854775808) % 18446744073709551616 - 9223372036854775808

/-- pgio.AppendUint64: append the 8 big-endian bytes of n. -/
def pgioAppendUint64 (buf : List Nat) (n : Nat) : List Nat :=
  buf ++ toBytesBE8 (n % 18446744073709551616)

/-- pgio.AppendInt64: append the 8 big-endian bytes of uint64(x). -/
def pgioAppendInt64 (buf : List Nat) (x : Int) : List Nat :=
  buf ++ toBytesBE8 (toUint64 x)

/-- pgtype.InfinityModifier. -/
inductive InfinityModifier where
  | negativeInfinity
  | none
  | infinity
deriving DecidableEq

/-- pgtype.Timestamptz. The Time field is the instant in nanoseconds since
the Unix epoch. -/
structure Timestamptz where
  time : Int
  infinityModifier : InfinityModifier
  valid : Bool
deriving DecidableEq

/-- The zero value of time.Time, 0001-01-01 00:00:00 UTC, as nanoseconds
since the Unix epoch. -/
def goZeroTime : Int := -62135596800000000000

/-- The zero value of pgtype.Timestamptz (Go Timestamptz\x7b\x7d). -/
def zeroTimestamptz : Timestamptz := ⟨goZeroTime, .none, false⟩

/-- Constant microsecFromUnixEpochToY2K. -/
def microsecFromUnixEpochToY2K : Int := 946684800 * 1000000

/-- Constant infinityMicrosecondOffset. -/
def infinityMicrosecondOffset : Int := 9223372036854775807

/-- Constant negativeInfinityMicrosecondOffset. -/
def negativeInfinityMicrosecondOffset : Int := -9223372036854775808

/-- Timestamptz.TimestamptzValue: returns the receiver with a nil error. -/
def Timestamptz.timestamptzValue (tstz : Timestamptz) : Except String Timestamptz :=
  .ok tstz

/-- time.Time.Unix(): whole seconds since the Unix epoch (floor). -/
def timeUnix (t : Int) : Int := t / 1000000000

/-- time.Time.Nanosecond(): the nanosecond offset within the second,
in [0, 1e9). -/
def timeNanosecond (t : Int) : Int := t % 1000000000

/-- time.Unix(sec, nsec): the instant sec seconds plus nsec nanoseconds
after the Unix epoch (Go normalizes out-of-range nsec; the value is the
same). -/
def timeUnixCons (sec nsec : Int) : Int := sec * 1000000000 + nsec

/-- time.Time.Truncate(time.Microsecond): round down to a multiple of 1000
nanoseconds (the zero time is itself a multiple of 1000, so rounding since
the zero time and since the Unix epoch agree). -/
def timeTruncateMicro (t : Int) : Int := t - t % 1000

/-- encodePlanTimestamptzCodecBinary.Encode (src lines 253-279). The
arithmetic on int64 wraps at each step exactly as in Go. -/
def encodePlanTimestamptzCodecBinaryEncode (value : Timestamptz) (buf : List Nat) :
    Except String (Option (List Nat)) :=
  match value.timestamptzValue with
  | .error e => .error e
  | .ok ts =>
    if ts.valid = false then .ok none
    else
      let microsecSinceY2K : Int :=
        match ts.infinityModifier with
        | .none =>
          let microsecSinceUnixEpoch :=
            wrap64 (wrap64 (timeUnix ts.time * 1000000) + timeNanosecond ts.time / 1000)
          wrap64 (microsecSinceUnixEpoch - microsecFromUnixEpochToY2K)
        | .infinity => infinityMicrosecondOffset
        | .negativeInfinity => negativeInfinityMicrosecondOffset
      .ok (some (pgioAppendInt64 buf microsecSinceY2K))

/-- Decimal digits (ASCII) of a natural number, most significant first.
Fuel-structured so that it reduces definitionally; 20 digits of fuel cover
every value the formatter meets. -/
def natDigitsAux : Nat → Nat → List Nat
  | 0, _ => []
  | fuel + 1, n => if n < 10 then [48 + n] else natDigitsAux fuel (n / 10) ++ [48 + n % 10]

/-- Decimal ASCII digits of n. -/
def natDigits (n : Nat) : List Nat := natDigitsAux 20 n

/-- Left-pad an ASCII digit list with zeros to the given width. -/
def padZeros (width : Nat) (ds : List Nat) : List Nat :=
  List.replicate (width - ds.length) 48 ++ ds

/-- Drop trailing ASCII zero digits. -/
def trimTrailingZeros (l : List Nat) : List Nat :=
  (l.reverse.dropWhile (fun c => c = 48)).reverse

/-- Civil date (year, month, day) of a day count relative to 1970-01-01,
the standard Gregorian conversion Go performs inside Time.Format. -/
def civilFromDays (z0 : Int) : Int × Nat × Nat :=
  let z := z0 + 719468
  let era := z / 146097
  let doe := (z - era * 146097).toNat
  let yoe := (doe - doe / 1460 + doe / 36524 - doe / 146096) / 365
  let y := (yoe : Int) + era * 400
  let doy := doe - (365 * yoe + yoe / 4 - yoe / 100)
  let mp := (5 * doy + 2) / 153
  let d := doy - (153 * mp + 2) / 5 + 1
  let m := if mp < 10 then mp + 3 else mp - 9
  (if m ≤ 2 then y + 1 else y, m, d)

/-- Go t.UTC().Truncate(time.Microsecond).Format(pgTimestamptzSecondFormat)
with layout "2006-01-02 15:04:05.999999999Z07:00:00": the UTC rendering of
the instant with the fractional second trimmed of trailing zeros (omitted
when zero) and the zone printed as "Z" for UTC, as bytes. -/
def fmtTimestamptzText (t0 : Int) : List Nat :=
  let t := timeTruncateMicro t0
  let sec := t / 1000000000
  let nsec := (t % 1000000000).toNat
  let days := sec / 86400
  let sod := (sec % 86400).toNat
  let ymd := civilFromDays days
  let frac :=
    let ds := trimTrailingZeros (padZeros 9 (natDigits nsec))
    if ds = [] then [] else 46 :: ds
  padZeros 4 (natDigits ymd.1.toNat) ++ [45] ++ padZeros 2 (natDigits ymd.2.1) ++ [45] ++
    padZeros 2 (natDigits ymd.2.2) ++ [32] ++ padZeros 2 (natDigits (sod / 3600)) ++ [58] ++
    padZeros 2 (natDigits (sod % 3600 / 60)) ++ [58] ++ padZeros 2 (natDigits (sod % 60)) ++
    frac ++ [90]

/-- encodePlanTimestamptzCodecText.Encode (src lines 281-303). Unlike the
binary plan, the source performs no ts.Valid check before formatting. -/
def encodePlanTimestamptzCodecTextEncode (value : Timestamptz) (buf : List Nat) :
    Except String (Option (List Nat)) :=
  match value.timestamptzValue with
  | .error e => .error e
  | .ok ts =>
    let s : List Nat :=
      match ts.infinityModifier with
      | .none => fmtTimestamptzText ts.time
      | .infinity => [105, 110, 102, 105, 110, 105, 116, 121]
      | .negativeInfinity => [45, 105, 110, 102, 105, 110, 105, 116, 121]
    .ok (some (buf ++ s))

/-- scanPlanBinaryTimestamptzToTimestamptzScanner.Scan (src lines 323-353),
with the TimestamptzScanner target instantiated at *Timestamptz, whose
ScanTimestamptz overwrites the target. Returns the new target and the
optional error. -/
def scanPlanBinaryTimestamptzToTimestamptzScannerScan (src : Option (List Nat))
    (dst : Timestamptz) : Timestamptz × Option String :=
  match src with
  | Option.none => (zeroTimestamptz, Option.none)
  | some b =>
    if b.length ≠ 8 then (dst, some ("invalid length for timestamptz: " ++ toString b.length))
    else
      let microsecSinceY2K := toInt64 (beUint64 b)
      if microsecSinceY2K = infinityMicrosecondOffset then
        (⟨goZeroTime, .infinity, true⟩, Option.none)
      else if microsecSinceY2K = negativeInfinityMicrosecondOffset then
        (⟨goZeroTime, .negativeInfinity, true⟩, Option.none)
      else
        let tim := timeUnixCons
          (Int.tdiv microsecFromUnixEpochToY2K 1000000 + Int.tdiv microsecSinceY2K 1000000)
          (Int.tmod microsecFromUnixEpochToY2K 1000000 * 1000 +
            Int.tmod microsecSinceY2K 1000000 * 1000)
        (⟨tim, .none, true⟩, Option.none)

/-- pgtype.Bool, renamed because the Go name collides with the Lean builtin. -/
structure PgBool where
  bool : Bool
  valid : Bool
deriving DecidableEq

/-- Bool.BoolValue: returns the receiver with a nil error. -/
def PgBool.boolValue (b : PgBool) : Except String PgBool := .ok b

/-- encodePlanBoolCodecBinaryBool.Encode (src lines 556-568). -/
def encodePlanBoolCodecBinaryBoolEncode (value : Bool) (buf : List Nat) :
    Except String (Option (List Nat)) :=
  .ok (some (buf ++ [if value then 1 else 0]))

/-- encodePlanBoolCodecTextBool.Encode (src lines 612-624). -/
def encodePlanBoolCodecTextBoolEncode (value : Bool) (buf : List Nat) :
    Except String (Option (List Nat)) :=
  .ok (some (buf ++ [if value then 116 else 102]))

/-- encodePlanBoolCodecBinaryBoolValuer.Encode (src lines 591-610). -/
def encodePlanBoolCodecBinaryBoolValuerEncode (value : PgBool) (buf : List Nat) :
    Except String (Option (List Nat)) :=
  match value.boolValue with
  | .error e => .error e
  | .ok b =>
    if b.valid = false then .ok none
    else .ok (some (buf ++ [if b.bool then 1 else 0]))

/-- encodePlanBoolCodecTextBoolValuer.Encode (src lines 570-589). -/
def encodePlanBoolCodecTextBoolValuerEncode (value : PgBool) (buf : List Nat) :
    Except String (Option (List Nat)) :=
  match value.boolValue with
  | .error e => .error e
  | .ok b =>
    if b.valid = false then .ok none
    else .ok (some (buf ++ [if b.bool then 116 else 102]))

/-- scanPlanBinaryBoolToBool.Scan (src lines 665-684) with the target
instantiated at *bool. -/
def scanPlanBinaryBoolToBoolScan (src : Option (List Nat)) (dst : Bool) :
    Bool × Option String :=
  match src with
  | Option.none => (dst, some "cannot scan null into *bool")
  | some b =>
    if b.length ≠ 1 then (dst, some ("invalid length for bool: " ++ toString b.length))
    else (b.getD 0 0 == 1, Option.none)

/-- scanPlanTextAnyToBool.Scan (src lines 686-705) with the target
instantiated at *bool. -/
def scanPlanTextAnyToBoolScan (src : Option (List Nat)) (dst : Bool) :
    Bool × Option String :=
  match src with
  | Option.none => (dst, some "cannot scan null into *bool")
  | some b =>
    if b.length ≠ 1 then (dst, some ("invalid length for bool: " ++ toString b.length))
    else (b.getD 0 0 == 116, Option.none)

/-- scanPlanBinaryBoolToBoolScanner.Scan (src lines 707-724) with the
BoolScanner target instantiated at *Bool, whose ScanBool overwrites the
target. -/
def scanPlanBinaryBoolToBoolScannerScan (src : Option (List Nat)) (dst : PgBool) :
    PgBool × Option String :=
  match src with
  | Option.none => (⟨false, false⟩, Option.none)
  | some b =>
    if b.length ≠ 1 then (dst, some ("invalid length for bool: " ++ toString b.length))
    else (⟨b.getD 0 0 == 1, true⟩, Option.none)

/-- scanPlanTextAnyToBoolScanner.Scan (src lines 726-743) with the
BoolScanner target instantiated at *Bool. -/
def scanPlanTextAnyToBoolScannerScan (src : Option (List Nat)) (dst : PgBool) :
    PgBool × Option String :=
  match src with
  | Option.none => (⟨false, false⟩, Option.none)
  | some b =>
    if b.length ≠ 1 then (dst, some ("invalid length for bool: " ++ toString b.length))
    else (⟨b.getD 0 0 == 116, true⟩, Option.none)

/-- pgtype.Float8; the Float field carries the IEEE-754 bit pattern. -/
structure Float8 where
  float : Nat
  valid : Bool
deriving DecidableEq

/-- pgtype.Int8 (the int8 OID wrapper holding an int64). -/
structure PgInt8 where
  int : Int
  valid : Bool
deriving DecidableEq

/-- Float8.Float64Value: returns the receiver with a nil error. -/
def Float8.float64Value (f : Float8) : Except String Float8 := .ok f

/-- PgInt8.Int64Value: returns the receiver with a nil error (the Int64Valuer
instance the float8 codec accepts). -/
def PgInt8.int64Value (n : PgInt8) : Except String PgInt8 := .ok n

/-- math.Float64bits: in the bit-pattern model of float64 it is the
identity. -/
def mathFloat64bits (f : Nat) : Nat := f

/-- Floor of log2 for 1 <= a < 2^64, computed by scanning the 64 candidate
exponents. -/
def findExp (a : Nat) : Nat :=
  (List.range 64).foldl (fun acc i => if 2 ^ i ≤ a then i else acc) 0

/-- Go conversion float64(n) of an int64 value n: IEEE-754 binary64
round-to-nearest-even, returned as a bit pattern. Values of magnitude below
2^53 are exact; larger ones round in the discarded low bits. -/
def float64bitsOfInt (n : Int) : Nat :=
  if n = 0 then 0
  else
    let s : Nat := if n < 0 then 1 else 0
    let a := n.natAbs
    let k := findExp a
    if k ≤ 52 then
      s * 9223372036854775808 + (1023 + k) * 4503599627370496 +
        (a * 2 ^ (52 - k) - 4503599627370496)
    else
      let sh := k - 52
      let q := a / 2 ^ sh
      let r := a % 2 ^ sh
      let half := 2 ^ (sh - 1)
      let q2 := if half < r ∨ (r = half ∧ q % 2 = 1) then q + 1 else q
      if q2 = 9007199254740992 then s * 9223372036854775808 + (1024 + k) * 4503599627370496
      else s * 9223372036854775808 + (1023 + k) * 4503599627370496 + (q2 - 4503599627370496)

/-- encodePlanFloat8CodecBinaryFloat64.Encode (src lines 854-859). -/
def encodePlanFloat8CodecBinaryFloat64Encode (value : Nat) (buf : List Nat) :
    Except String (Option (List Nat)) :=
  .ok (some (pgioAppendUint64 buf (mathFloat64bits value)))

/-- encodePlanFloat8CodecBinaryFloat64Valuer.Encode (src lines 868-881). -/
def encodePlanFloat8CodecBinaryFloat64ValuerEncode (value : Float8) (buf : List Nat) :
    Except String (Option (List Nat)) :=
  match value.float64Value with
  | .error e => .error e
  | .ok n =>
    if n.valid = false then .ok none
    else .ok (some (pgioAppendUint64 buf (mathFloat64bits n.float)))

/-- encodePlanFloat8CodecBinaryInt64Valuer.Encode (src lines 898-912). -/
def encodePlanFloat8CodecBinaryInt64ValuerEncode (value : PgInt8) (buf : List Nat) :
    Except String (Option (List Nat)) :=
  match value.int64Value with
  | .error e => .error e
  | .ok n =>
    if n.valid = false then .ok none
    else .ok (some (pgioAppendUint64 buf (float64bitsOfInt n.int)))

/-- scanPlanBinaryFloat8ToFloat64.Scan (src lines 955-971) with the target
instantiated at *float64 (bit pattern). -/
def scanPlanBinaryFloat8ToFloat64Scan (src : Option (List Nat)) (dst : Nat) :
    Nat × Option String :=
  match src with
  | Option.none => (dst, some "cannot scan null into *float64")
  | some b =>
    if b.length ≠ 8 then (dst, some ("invalid length for float8: " ++ toString b.length))
    else (toUint64 (toInt64 (beUint64 b)), Option.none)

/-- A Go slice: its visible elements, the capacity of the backing array and
an identity token for the backing allocation (0 denotes the nil slice). -/
structure GoSlice (α : Type) where
  data : List α
  cap : Nat
  alloc : Nat
deriving DecidableEq

/-- Go append of one element: reuse the backing array while the length is
below the capacity, otherwise grow into a fresh allocation (doubling, at
least 1). -/
def GoSlice.push {α : Type} (s : GoSlice α) (x : α) : GoSlice α :=
  if s.data.length < s.cap then { s with data := s.data ++ [x] }
  else { data := s.data ++ [x], cap := max 1 (2 * s.cap), alloc := s.alloc + 1 }

/-- Go reslicing s[0:0]: length 0, same capacity, same backing array. -/
def GoSlice.resliceEmpty {α : Type} (s : GoSlice α) : GoSlice α :=
  { s with data := [] }

/-- A nil slice carries no elements and no capacity. -/
def GoSlice.wf {α : Type} (s : GoSlice α) : Prop :=
  s.alloc = 0 → s.data = [] ∧ s.cap = 0

/-- The dynamic shapes of arguments the encode path distinguishes: nil, a
string, a (possibly nil) pointer, a named type convertible to its
underlying type by stripNamedType, and any other value with no codec
support. -/
inductive GoValue where
  | goNil
  | str (s : List Nat)
  | ptr (v : Option GoValue)
  | named (v : GoValue)
  | other (tag : Nat)

/-- The %T rendering used by the SerializationError message. -/
def goTypeName : GoValue → String
  | .goNil => "<nil>"
  | .str _ => "string"
  | .ptr _ => "pointer"
  | .named _ => "named"
  | .other _ => "other"

/-- Modelled from the spec: the type registry Map of section 4.3, whose
implementation is not part of src. TypeForOID is a found-flag per OID,
Encode appends a payload to the given buffer, returning the grown buffer,
a nil buffer for SQL NULL, or an error; preferredBinaryFor abstracts
whether the registered codec prefers and supports binary for the value. -/
structure PgMap where
  hasCodec : Nat → Bool
  encode : Nat → Int → GoValue → List Nat → Except String (Option (List Nat))
  preferredBinaryFor : Nat → GoValue → Bool

/-- Modelled from the spec (section 4.5): chooseParameterFormatCode, whose
implementation is not part of src. Binary (1) when the registered codec
prefers and supports binary for this value, otherwise text (0). -/
def chooseParameterFormatCode (m : PgMap) (oid : Nat) (arg : GoValue) : Int :=
  if m.preferredBinaryFor oid arg then 1 else 0

/-- The SerializationError message of src line 101. -/
def serializationError (arg : GoValue) (oid : Nat) : String :=
  "Cannot encode " ++ goTypeName arg ++ " into oid " ++ toString oid ++ " - " ++
    goTypeName arg ++ " must implement Encoder or be converted to a string"

/-- Lines 69-71: if eqb.paramValueBytes == nil, allocate an empty slice of
capacity 128. -/
def nilInitParamValueBytes (pvb : GoSlice Nat) : GoSlice Nat :=
  if pvb.alloc = 0 then { data := [], cap := 128, alloc := pvb.alloc + 1 } else pvb

/-- Lines 86-96: the registered-codec branch of encodeExtendedParamValue.
m.Encode appends to the shared buffer; on success the builder adopts the
grown buffer and the payload is the appended suffix; on a nil buffer the
result is SQL NULL and the builder keeps its previous buffer; on error the
buffer is also kept. -/
def mapEncodeStep (m : PgMap) (oid : Nat) (formatCode : Int) (arg : GoValue)
    (pvb : GoSlice Nat) : GoSlice Nat × Except String (Option (List Nat)) :=
  let pos := pvb.data.length
  match m.encode oid formatCode arg pvb.data with
  | .error err => (pvb, .error err)
  | .ok Option.none => (pvb, .ok none)
  | .ok (some buf) =>
    ({ data := buf, cap := max pvb.cap buf.length, alloc := pvb.alloc },
      .ok (some (buf.drop pos)))

/-- extendedQueryBuilder.encodeExtendedParamValue (src lines 57-102),
threading the eqb.paramValueBytes field it mutates. Branch order follows
the source: nil argument, nil pointer, lazy buffer allocation, the verbatim
string pass-through, single pointer dereference, the registered-codec path,
the stripNamedType retry, and the SerializationError fallback. -/
def encodeExtendedParamValue (m : PgMap) (oid : Nat) (formatCode : Int) (arg : GoValue)
    (pvb : GoSlice Nat) : GoSlice Nat × Except String (Option (List Nat)) :=
  match arg with
  | .goNil => (pvb, .ok none)
  | .ptr Option.none => (pvb, .ok none)
  | .str s =>
    let pvb2 := nilInitParamValueBytes pvb
    (pvb2, .ok (some s))
  | .ptr (some inner) =>
    let pvb2 := nilInitParamValueBytes pvb
    encodeExtendedParamValue m oid formatCode inner pvb2
  | .named inner =>
    let pvb2 := nilInitParamValueBytes pvb
    if m.hasCodec oid then mapEncodeStep m oid formatCode (.named inner) pvb2
    else encodeExtendedParamValue m oid formatCode inner pvb2
  | .other tag =>
    let pvb2 := nilInitParamValueBytes pvb
    if m.hasCodec oid then mapEncodeStep m oid formatCode (.other tag) pvb2
    else (pvb2, .error (serializationError (.other tag) oid))

/-- The extendedQueryBuilder record (src lines 10-15). -/
structure ExtendedQueryBuilder where
  paramValues : GoSlice (Option (List Nat))
  paramValueBytes : GoSlice Nat
  paramFormats : GoSlice Int
  resultFormats : GoSlice Int
deriving DecidableEq

/-- extendedQueryBuilder.AppendParam (src lines 17-28): the format code is
appended to paramFormats first, then the value is encoded; on an encode
error the error is returned, otherwise the payload joins paramValues. -/
def extendedQueryBuilderAppendParam (eqb : ExtendedQueryBuilder) (m : PgMap) (oid : Nat)
    (arg : GoValue) : ExtendedQueryBuilder × Option String :=
  let f := chooseParameterFormatCode m oid arg
  let eqb1 := { eqb with paramFormats := eqb.paramFormats.push f }
  let r := encodeExtendedParamValue m oid f arg eqb1.paramValueBytes
  let eqb2 := { eqb1 with paramValueBytes := r.1 }
  match r.2 with
  | .error err => (eqb2, some err)
  | .ok v => ({ eqb2 with paramValues := eqb2.paramValues.push v }, Option.none)

/-- extendedQueryBuilder.AppendResultFormat (src lines 30-32). -/
def extendedQueryBuilderAppendResultFormat (eqb : ExtendedQueryBuilder) (f : Int) :
    ExtendedQueryBuilder :=
  { eqb with resultFormats := eqb.resultFormats.push f }

/-- extendedQueryBuilder.Reset (src lines 34-55): reslice all four
sequences to length 0, then replace any backing array whose capacity
exceeds its threshold (64 entries, 256 bytes for the shared buffer) by a
fresh allocation at the threshold. -/
def extendedQueryBuilderReset (eqb : ExtendedQueryBuilder) : ExtendedQueryBuilder :=
  let pv := eqb.paramValues.resliceEmpty
  let pvb := eqb.paramValueBytes.resliceEmpty
  let pf := eqb.paramFormats.resliceEmpty
  let rf := eqb.resultFormats.resliceEmpty
  let pv := if 64 < pv.cap then { data := [], cap := 64, alloc := pv.alloc + 1 } else pv
  let pvb := if 256 < pvb.cap then { data := [], cap := 256, alloc := pvb.alloc + 1 } else pvb
  let pf := if 64 < pf.cap then { data := [], cap := 64, alloc := pf.alloc + 1 } else pf
  let rf := if 64 < rf.cap then { data := [], cap := 64, alloc := rf.alloc + 1 } else rf
  { paramValues := pv, paramValueBytes := pvb, paramFormats := pf, resultFormats := rf }

/-- ASCII bytes of a string literal, for stating payload contents. -/
def strBytes (s : String) : List Nat := s.toList.map Char.toNat

/-- Equality of Timestamptz wrappers as SQL values: NULL equals NULL, and
two valid wrappers agree when their infinity modifiers agree and, for the
non-sentinel modifier, they denote the same instant (the payload of a
sentinel or NULL wrapper is irrelevant, spec section 3). -/
def tstzEquiv (a b : Timestamptz) : Prop :=
  (a.valid = false ∧ b.valid = false) ∨
  (a.valid = true ∧ b.valid = true ∧ a.infinityModifier = b.infinityModifier ∧
    (a.infinityModifier = .none → a.time = b.time))

/-- In-range, for the binary timestamptz wire format: a non-sentinel valid
value must lie on a whole microsecond and its microsecond offset from the
PostgreSQL epoch must fit in int64 without hitting either infinity
sentinel; NULL and infinity wrappers are always in range. -/
def tstzInRange (ts : Timestamptz) : Prop :=
  ts.valid = true → ts.infinityModifier = .none →
    (ts.time % 1000 = 0 ∧
     -9223372036854775808 < ts.time / 1000 - 946684800000000 ∧
     ts.time / 1000 - 946684800000000 < 9223372036854775807)

/-- A registry with no codec registered for any OID. -/
def noCodecMap : PgMap :=
  ⟨fun _ => false, fun _ _ _ buf => .ok (some buf), fun _ _ => false⟩

/-- A registry with a codec registered for every OID whose encode plan
appends two zero bytes to the buffer. -/
def codecMap : PgMap :=
  ⟨fun _ => true, fun _ _ _ buf => .ok (some (buf ++ [0, 0])), fun _ _ => false⟩

/-- A freshly zero-valued extendedQueryBuilder: four nil slices. -/
def emptyBuilder : ExtendedQueryBuilder :=
  ⟨⟨[], 0, 0⟩, ⟨[], 0, 0⟩, ⟨[], 0, 0⟩, ⟨[], 0, 0⟩⟩

/-- The NaN test on a float64 bit pattern: exponent field all ones and a
nonzero mantissa field. -/
def float64IsNaN (b : Nat) : Bool :=
  b / 4503599627370496 % 2048 == 2047 && b % 4503599627370496 != 0

/-- Go float64 comparison (==) on bit patterns: a NaN compares unequal to
everything, itself included; positive and negative zero compare equal; any
other pair compares equal exactly when the bit patterns coincide. -/
def float64Eq (a b : Nat) : Bool :=
  if float64IsNaN a || float64IsNaN b then false
  else if (a == 0 || a == 9223372036854775808) &&
      (b == 0 || b == 9223372036854775808) then true
  else a == b

/-- Go conversion int64(f) of a float64 given by its bit pattern:
truncation toward zero. When the value is not representable (NaN, an
infinity, or magnitude out of the int64 range) the Go specification leaves
the result implementation-dependent; this models the gc compiler on amd64,
where every such conversion yields -2^63. -/
def float64TruncToInt64 (b : Nat) : Int :=
  let s := b / 9223372036854775808
  let e := b / 4503599627370496 % 2048
  let m := b % 4503599627370496
  if e = 2047 then -9223372036854775808
  else if e < 1023 then 0
  else
    let mag : Nat :=
      if e ≤ 1075 then (4503599627370496 + m) / 2 ^ (1075 - e)
      else (4503599627370496 + m) * 2 ^ (e - 1075)
    let v : Int := if s = 0 then (mag : Int) else -(mag : Int)
    if v < -9223372036854775808 ∨ 9223372036854775807 < v then -9223372036854775808
    else v

/-- The exact rational value denoted by a finite float64 bit pattern
(sign, biased exponent, mantissa); the value returned on an exponent field
of all ones (infinity or NaN) is junk and never relied upon. -/
def float64Val (b : Nat) : Rat :=
  let s := b / 9223372036854775808
  let e := b / 4503599627370496 % 2048
  let m := b % 4503599627370496
  let mag : Rat :=
    if e = 0 then (m : Rat) * (2 : Rat) ^ (-1074 : Int)
    else ((4503599627370496 + m : Nat) : Rat) * (2 : Rat) ^ ((e : Int) - 1075)
  if s = 0 then mag else -mag

/-- scanPlanBinaryFloat8ToInt64Scanner.Scan (src lines 990-1011) with the
Int64Scanner target instantiated at the Int8 wrapper, whose ScanInt64
overwrites the target (the wrapper scanner itself is not part of src and is
modelled from the spec as plain assignment). The decoded bits pass through
the int64/uint64 casts of the source; the error message %v rendering of the
float is not modelled. -/
def scanPlanBinaryFloat8ToInt64ScannerScan (src : Option (List Nat)) (dst : PgInt8) :
    PgInt8 × Option String :=
  match src with
  | Option.none => (⟨0, false⟩, Option.none)
  | some b =>
    if b.length ≠ 8 then (dst, some ("invalid length for float8: " ++ toString b.length))
    else
      let f64 := toUint64 (toInt64 (beUint64 b))
      let i64 := float64TruncToInt64 f64
      if float64Eq f64 (float64bitsOfInt i64) = false then
        (dst, some "cannot losslessly convert to int64")
      else (⟨i64, true⟩, Option.none)

theorem toBytesBE8_length (m : Nat) : (toBytesBE8 m).length = 8 := rfl

theorem toBytesBE8_lt (m : Nat) : ∀ b ∈ toBytesBE8 m, b < 256 := by
  intro b hb
  simp [toBytesBE8] at hb
  rcases hb with h | h | h | h | h | h | h | h <;> subst h <;> omega

theorem beUint64_toBytesBE8 (m : Nat) (h : m < 18446744073709551616) :
    beUint64 (toBytesBE8 m) = m := by
  simp [beUint64, toBytesBE8, List.foldl]
  omega

theorem toInt64_toUint64 (x : Int) (h1 : -9223372036854775808 ≤ x)
    (h2 : x < 9223372036854775808) : toInt64 (toUint64 x) = x := by
  unfold toInt64 toUint64
  split <;> omega

theorem toUint64_lt (x : Int) : toUint64 x < 18446744073709551616 := by
  unfold toUint64
  omega

theorem GoSlice.push_data {α : Type} (s : GoSlice α) (x : α) :
    (s.push x).data = s.data ++ [x] := by
  unfold GoSlice.push
  split <;> rfl

theorem nilInit_data (pvb : GoSlice Nat) (h : pvb.wf) :
    (nilInitParamValueBytes pvb).data = pvb.data := by
  unfold nilInitParamValueBytes
  split
  · next ha => exact ((h ha).1).symm
  · rfl

theorem nilInit_wf (pvb : GoSlice Nat) : (nilInitParamValueBytes pvb).wf := by
  unfold nilInitParamValueBytes GoSlice.wf
  split
  · simp
  · next hne => exact fun ha => absurd ha hne

theorem mapEncodeStep_error_keeps (m : PgMap) (oid : Nat) (fc : Int) (arg : GoValue)
    (pvb : GoSlice Nat) (e : String)
    (h : (mapEncodeStep m oid fc arg pvb).2 = .error e) :
    (mapEncodeStep m oid fc arg pvb).1 = pvb := by
  unfold mapEncodeStep at h ⊢
  cases hm : m.encode oid fc arg pvb.data with
  | error he => simp [hm]
  | ok ho =>
    rw [hm] at h
    cases ho <;> simp at h

theorem encodeEPV_error_keeps_data (m : PgMap) (oid : Nat) (fc : Int) :
    ∀ (arg : GoValue) (pvb : GoSlice Nat), pvb.wf →
      ∀ e, (encodeExtendedParamValue m oid fc arg pvb).2 = .error e →
        (encodeExtendedParamValue m oid fc arg pvb).1.data = pvb.data
  | .goNil, pvb, _, e, h => by simp [encodeExtendedParamValue] at h
  | .ptr Option.none, pvb, _, e, h => by simp [encodeExtendedParamValue] at h
  | .str s, pvb, _, e, h => by simp [encodeExtendedParamValue] at h
  | .ptr (some inner), pvb, hwf, e, h => by
    have hrec := encodeEPV_error_keeps_data m oid fc inner (nilInitParamValueBytes pvb)
      (nilInit_wf pvb) e
    simp only [encodeExtendedParamValue] at h ⊢
    rw [hrec h, nilInit_data pvb hwf]
  | .named inner, pvb, hwf, e, h => by
    simp only [encodeExtendedParamValue] at h ⊢
    by_cases hc : m.hasCodec oid
    · rw [if_pos hc] at h ⊢
      rw [mapEncodeStep_error_keeps m oid fc _ _ e h, nilInit_data pvb hwf]
    · rw [if_neg hc] at h ⊢
      have hrec := encodeEPV_error_keeps_data m oid fc inner (nilInitParamValueBytes pvb)
        (nilInit_wf pvb) e
      rw [hrec h, nilInit_data pvb hwf]
  | .other tag, pvb, hwf, e, h => by
    simp only [encodeExtendedParamValue] at h ⊢
    by_cases hc : m.hasCodec oid
    · rw [if_pos hc] at h ⊢
      rw [mapEncodeStep_error_keeps m oid fc _ _ e h, nilInit_data pvb hwf]
    · rw [if_neg hc] at h ⊢
      exact nilInit_data pvb hwf

/-- Claim C1 (failing evaluation): encoding the zero Timestamptz wrapper,
whose Valid flag is false and whose infinity modifier is None, through the
timestamptz text encode plan yields the formatted zero time instead of the
nil payload the claim requires; the plan lacks the Valid check its binary
sibling performs. -/
theorem timestamptz_text_encode_invalid_not_null :
    encodePlanTimestamptzCodecTextEncode zeroTimestamptz [] =
      .ok (some (strBytes "0001-01-01 00:00:00Z")) ∧
    encodePlanTimestamptzCodecTextEncode zeroTimestamptz [] ≠ .ok Option.none := by
  constructor
  · rfl
  · rw [show encodePlanTimestamptzCodecTextEncode zeroTimestamptz [] =
        .ok (some (strBytes "0001-01-01 00:00:00Z")) from rfl]
    simp

/-- Claim C2 (counterexample): on a fresh builder, appending a parameter
whose encoding fails with a SerializationError returns the error but leaves
paramFormats one element longer than before the call, so the builder is not
as if the parameter was never appended. -/
theorem appendParam_error_grows_paramFormats :
    (extendedQueryBuilderAppendParam emptyBuilder noCodecMap 17 (.other 0)).2 =
      some (serializationError (.other 0) 17) ∧
    (extendedQueryBuilderAppendParam emptyBuilder noCodecMap 17 (.other 0)).1.paramFormats.data.length = 1 ∧
    emptyBuilder.paramFormats.data.length = 0 :=
  ⟨rfl, rfl, rfl⟩

/-- Claim C2 (amended): when encoding an argument fails, AppendParam
returns the error; paramValues, the shared paramValueBytes contents and
resultFormats are exactly as before the call, but paramFormats has the
chosen format code appended (the source appends it before encoding). -/
theorem appendParam_error_effect (eqb : ExtendedQueryBuilder) (m : PgMap) (oid : Nat)
    (arg : GoValue) (e : String) (hwf : eqb.paramValueBytes.wf)
    (h : (encodeExtendedParamValue m oid (chooseParameterFormatCode m oid arg) arg
        eqb.paramValueBytes).2 = .error e) :
    (extendedQueryBuilderAppendParam eqb m oid arg).2 = some e ∧
    (extendedQueryBuilderAppendParam eqb m oid arg).1.paramValues = eqb.paramValues ∧
    (extendedQueryBuilderAppendParam eqb m oid arg).1.paramValueBytes.data =
      eqb.paramValueBytes.data ∧
    (extendedQueryBuilderAppendParam eqb m oid arg).1.resultFormats = eqb.resultFormats ∧
    (extendedQueryBuilderAppendParam eqb m oid arg).1.paramFormats.data =
      eqb.paramFormats.data ++ [chooseParameterFormatCode m oid arg] := by
  have hkeep := encodeEPV_error_keeps_data m oid (chooseParameterFormatCode m oid arg)
    arg eqb.paramValueBytes hwf e h
  unfold extendedQueryBuilderAppendParam
  dsimp only
  rw [h]
  exact ⟨rfl, rfl, hkeep, rfl, GoSlice.push_data _ _⟩

/-- Witness for appendParam_error_effect at a concrete failing input. -/
theorem appendParam_error_effect_witness :
    (extendedQueryBuilderAppendParam emptyBuilder noCodecMap 17 (.other 0)).2 =
      some (serializationError (.other 0) 17) ∧
    (extendedQueryBuilderAppendParam emptyBuilder noCodecMap 17 (.other 0)).1.paramValues =
      emptyBuilder.paramValues ∧
    (extendedQueryBuilderAppendParam emptyBuilder noCodecMap 17 (.other 0)).1.paramValueBytes.data =
      emptyBuilder.paramValueBytes.data ∧
    (extendedQueryBuilderAppendParam emptyBuilder noCodecMap 17 (.other 0)).1.resultFormats =
      emptyBuilder.resultFormats ∧
    (extendedQueryBuilderAppendParam emptyBuilder noCodecMap 17 (.other 0)).1.paramFormats.data =
      emptyBuilder.paramFormats.data ++ [chooseParameterFormatCode noCodecMap 17 (.other 0)] :=
  appendParam_error_effect emptyBuilder noCodecMap 17 (.other 0)
    (serializationError (.other 0) 17) (fun _ => ⟨rfl, rfl⟩) rfl

/-- Claim C3 (counterexample): with a codec registered for the OID, a
string argument is still emitted verbatim by the encode path; the codec
encode plan, which would have appended two extra bytes, is bypassed. -/
theorem string_passthrough_despite_codec :
    codecMap.hasCodec 25 = true ∧
    (encodeExtendedParamValue codecMap 25 0 (.str [120]) ⟨[], 0, 0⟩).2 = .ok (some [120]) ∧
    codecMap.encode 25 0 (.str [120]) [] = .ok (some [0, 0]) :=
  ⟨rfl, rfl, rfl⟩

/-- Claim C3 (amended): the encode path emits the bytes of a string
argument verbatim unconditionally, before the codec registry is consulted,
whether or not a codec is registered for the OID. -/
theorem string_always_verbatim (m : PgMap) (oid : Nat) (fc : Int) (s : List Nat)
    (pvb : GoSlice Nat) :
    (encodeExtendedParamValue m oid fc (.str s) pvb).2 = .ok (some s) := rfl

/-- Claim C9: scanning a nil payload with the bool scan plans: into a
native *bool target it is an error and the target keeps its value, in both
formats; into a BoolScanner target it succeeds and stores the invalid Bool
wrapper, in both formats. -/
theorem bool_null_scan_behaviour (db : Bool) (bw : PgBool) :
    scanPlanBinaryBoolToBoolScan Option.none db =
      (db, some "cannot scan null into *bool") ∧
    scanPlanTextAnyToBoolScan Option.none db =
      (db, some "cannot scan null into *bool") ∧
    scanPlanBinaryBoolToBoolScannerScan Option.none bw = (⟨false, false⟩, Option.none) ∧
    scanPlanTextAnyToBoolScannerScan Option.none bw = (⟨false, false⟩, Option.none) :=
  ⟨rfl, rfl, rfl, rfl⟩

/-- Claim C10: a one-byte text bool payload whose byte is not the letter t
(116) scans to false with no error, both into a native bool target and into
a BoolScanner target. -/
theorem text_bool_non_t_scans_false (c : Nat) (db : Bool) (bw : PgBool) (h : c ≠ 116) :
    scanPlanTextAnyToBoolScan (some [c]) db = (false, Option.none) ∧
    scanPlanTextAnyToBoolScannerScan (some [c]) bw = (⟨false, true⟩, Option.none) := by
  have hc : (c == 116) = false := by simp [h]
  constructor <;>
    simp [scanPlanTextAnyToBoolScan, scanPlanTextAnyToBoolScannerScan, hc]

/-- Witness for text_bool_non_t_scans_false at the byte f (102). -/
theorem text_bool_non_t_scans_false_witness :
    scanPlanTextAnyToBoolScan (some [102]) false = (false, Option.none) ∧
    scanPlanTextAnyToBoolScannerScan (some [102]) ⟨false, false⟩ =
      (⟨false, true⟩, Option.none) :=
  text_bool_non_t_scans_false 102 false ⟨false, false⟩ (by decide)

/-- Claim C5: every payload the binary bool encode plans produce is exactly
1 byte and every payload the binary float8 and timestamptz encode plans
produce is exactly 8 bytes; a non-nil binary payload of any other length
makes the corresponding binary scan plan return the invalid-length error
and leave the target unchanged. -/
theorem binary_width_invariants
    (buf out1 out2 out3 out4 out5 out6 src1 src2 src3 : List Nat)
    (b : Bool) (bw : PgBool) (fb : Nat) (f8 : Float8) (i8 : PgInt8) (ts : Timestamptz)
    (db : Bool) (df : Nat) (dt : Timestamptz)
    (h1 : encodePlanBoolCodecBinaryBoolEncode b buf = .ok (some out1))
    (h2 : encodePlanBoolCodecBinaryBoolValuerEncode bw buf = .ok (some out2))
    (h3 : encodePlanFloat8CodecBinaryFloat64Encode fb buf = .ok (some out3))
    (h4 : encodePlanFloat8CodecBinaryFloat64ValuerEncode f8 buf = .ok (some out4))
    (h5 : encodePlanFloat8CodecBinaryInt64ValuerEncode i8 buf = .ok (some out5))
    (h6 : encodePlanTimestamptzCodecBinaryEncode ts buf = .ok (some out6))
    (h7 : src1.length ≠ 1) (h8 : src2.length ≠ 8) (h9 : src3.length ≠ 8) :
    out1.length = buf.length + 1 ∧ out2.length = buf.length + 1 ∧
    out3.length = buf.length + 8 ∧ out4.length = buf.length + 8 ∧
    out5.length = buf.length + 8 ∧ out6.length = buf.length + 8 ∧
    scanPlanBinaryBoolToBoolScan (some src1) db =
      (db, some ("invalid length for bool: " ++ toString src1.length)) ∧
    scanPlanBinaryFloat8ToFloat64Scan (some src2) df =
      (df, some ("invalid length for float8: " ++ toString src2.length)) ∧
    scanPlanBinaryTimestamptzToTimestamptzScannerScan (some src3) dt =
      (dt, some ("invalid length for timestamptz: " ++ toString src3.length)) := by
  refine ⟨?_, ?_, ?_, ?_, ?_, ?_, ?_, ?_, ?_⟩
  · simp [encodePlanBoolCodecBinaryBoolEncode] at h1
    simp [← h1]
  · unfold encodePlanBoolCodecBinaryBoolValuerEncode PgBool.boolValue at h2
    dsimp only at h2
    rcases hv : bw.valid with _ | _ <;> rw [hv] at h2 <;> simp at h2
    simp [← h2]
  · simp [encodePlanFloat8CodecBinaryFloat64Encode, pgioAppendUint64] at h3
    simp [← h3, toBytesBE8]
  · unfold encodePlanFloat8CodecBinaryFloat64ValuerEncode Float8.float64Value at h4
    dsimp only at h4
    rcases hv : f8.valid with _ | _ <;> rw [hv] at h4 <;> simp at h4
    simp [← h4, pgioAppendUint64, toBytesBE8]
  · unfold encodePlanFloat8CodecBinaryInt64ValuerEncode PgInt8.int64Value at h5
    dsimp only at h5
    rcases hv : i8.valid with _ | _ <;> rw [hv] at h5 <;> simp at h5
    simp [← h5, pgioAppendUint64, toBytesBE8]
  · unfold encodePlanTimestamptzCodecBinaryEncode Timestamptz.timestamptzValue at h6
    dsimp only at h6
    rcases hv : ts.valid with _ | _ <;> rw [hv] at h6 <;> simp at h6
    simp [← h6, pgioAppendInt64, toBytesBE8]
  · unfold scanPlanBinaryBoolToBoolScan
    dsimp only
    rw [if_pos h7]
  · unfold scanPlanBinaryFloat8ToFloat64Scan
    dsimp only
    rw [if_pos h8]
  · unfold scanPlanBinaryTimestamptzToTimestamptzScannerScan
    dsimp only
    rw [if_pos h9]

/-- Witness for binary_width_invariants at concrete encode inputs and
wrong-length payloads. -/
theorem binary_width_invariants_witness :
    ([(0 : Nat)].length = List.length ([] : List Nat) + 1 ∧ [(1 : Nat)].length = List.length ([] : List Nat) + 1 ∧
     [0, 0, 0, 0, 0, 0, 0, (0 : Nat)].length = List.length ([] : List Nat) + 8 ∧
     [0, 0, 0, 0, 0, 0, 0, (0 : Nat)].length = List.length ([] : List Nat) + 8 ∧
     [0, 0, 0, 0, 0, 0, 0, (0 : Nat)].length = List.length ([] : List Nat) + 8 ∧
     [0, 0, 0, 0, 0, 0, 0, (0 : Nat)].length = List.length ([] : List Nat) + 8 ∧
     scanPlanBinaryBoolToBoolScan (some [0, 0]) false =
       (false, some ("invalid length for bool: " ++ toString [0, 0].length)) ∧
     scanPlanBinaryFloat8ToFloat64Scan (some [0]) 0 =
       (0, some ("invalid length for float8: " ++ toString [0].length)) ∧
     scanPlanBinaryTimestamptzToTimestamptzScannerScan (some [0]) zeroTimestamptz =
       (zeroTimestamptz, some ("invalid length for timestamptz: " ++ toString [0].length))) :=
  binary_width_invariants [] [0] [1] [0, 0, 0, 0, 0, 0, 0, 0] [0, 0, 0, 0, 0, 0, 0, 0]
    [0, 0, 0, 0, 0, 0, 0, 0] [0, 0, 0, 0, 0, 0, 0, 0] [0, 0] [0] [0]
    false ⟨true, true⟩ 0 ⟨0, true⟩ ⟨0, true⟩ ⟨946684800000000000, .none, true⟩
    false 0 zeroTimestamptz
    rfl rfl rfl rfl rfl rfl (by decide) (by decide) (by decide)

/-- Claim C8: after Reset all four sequences have length zero and their
capacities are at most the thresholds (64 entries, 256 bytes for the shared
buffer); when the capacities before the call were already within the
thresholds, the same backing allocations and capacities are kept. -/
theorem reset_invariants (eqb : ExtendedQueryBuilder) :
    ((extendedQueryBuilderReset eqb).paramValues.data.length = 0 ∧
     (extendedQueryBuilderReset eqb).paramValueBytes.data.length = 0 ∧
     (extendedQueryBuilderReset eqb).paramFormats.data.length = 0 ∧
     (extendedQueryBuilderReset eqb).resultFormats.data.length = 0) ∧
    ((extendedQueryBuilderReset eqb).paramValues.cap ≤ 64 ∧
     (extendedQueryBuilderReset eqb).paramValueBytes.cap ≤ 256 ∧
     (extendedQueryBuilderReset eqb).paramFormats.cap ≤ 64 ∧
     (extendedQueryBuilderReset eqb).resultFormats.cap ≤ 64) ∧
    (eqb.paramValues.cap ≤ 64 → eqb.paramValueBytes.cap ≤ 256 →
     eqb.paramFormats.cap ≤ 64 → eqb.resultFormats.cap ≤ 64 →
      (extendedQueryBuilderReset eqb).paramValues.alloc = eqb.paramValues.alloc ∧
      (extendedQueryBuilderReset eqb).paramValues.cap = eqb.paramValues.cap ∧
      (extendedQueryBuilderReset eqb).paramValueBytes.alloc = eqb.paramValueBytes.alloc ∧
      (extendedQueryBuilderReset eqb).paramValueBytes.cap = eqb.paramValueBytes.cap ∧
      (extendedQueryBuilderReset eqb).paramFormats.alloc = eqb.paramFormats.alloc ∧
      (extendedQueryBuilderReset eqb).paramFormats.cap = eqb.paramFormats.cap ∧
      (extendedQueryBuilderReset eqb).resultFormats.alloc = eqb.resultFormats.alloc ∧
      (extendedQueryBuilderReset eqb).resultFormats.cap = eqb.resultFormats.cap) := by
  unfold extendedQueryBuilderReset GoSlice.resliceEmpty
  dsimp only
  refine ⟨⟨?_, ?_, ?_, ?_⟩, ⟨?_, ?_, ?_, ?_⟩, ?_⟩
  · split <;> simp
  · split <;> simp
  · split <;> simp
  · split <;> simp
  · split <;> (dsimp only; omega)
  · split <;> (dsimp only; omega)
  · split <;> (dsimp only; omega)
  · split <;> (dsimp only; omega)
  intro hpv hpvb hpf hrf
  rw [if_neg (by omega), if_neg (by omega), if_neg (by omega), if_neg (by omega)]
  exact ⟨rfl, rfl, rfl, rfl, rfl, rfl, rfl, rfl⟩

/-- Witness for reset_invariants at a concrete builder within the
thresholds. -/
theorem reset_invariants_witness :
    ((extendedQueryBuilderReset emptyBuilder).paramValues.data.length = 0 ∧
     (extendedQueryBuilderReset emptyBuilder).paramValueBytes.data.length = 0 ∧
     (extendedQueryBuilderReset emptyBuilder).paramFormats.data.length = 0 ∧
     (extendedQueryBuilderReset emptyBuilder).resultFormats.data.length = 0) ∧
    ((extendedQueryBuilderReset emptyBuilder).paramValues.alloc =
        emptyBuilder.paramValues.alloc ∧
     (extendedQueryBuilderReset emptyBuilder).paramValueBytes.alloc =
        emptyBuilder.paramValueBytes.alloc) := by
  have h := reset_invariants emptyBuilder
  have h3 := h.2.2 (by decide) (by decide) (by decide) (by decide)
  exact ⟨h.1, h3.1, h3.2.2.1⟩

/-- Claim C6: binary-encoding a valid wrapper with the plus-infinity
modifier appends exactly the bytes 7F FF FF FF FF FF FF FF and with the
minus-infinity modifier exactly 80 00 00 00 00 00 00 00, whatever the Time
field holds; the binary scan plan maps exactly these two 8-byte payloads
(and no other 8-byte payload) to the corresponding infinity-modifier
wrappers. -/
theorem timestamptz_infinity_sentinels (t : Int) (buf src : List Nat) (dst : Timestamptz)
    (h8 : src.length = 8) (hb : ∀ x ∈ src, x < 256) :
    encodePlanTimestamptzCodecBinaryEncode ⟨t, .infinity, true⟩ buf =
      .ok (some (buf ++ [127, 255, 255, 255, 255, 255, 255, 255])) ∧
    encodePlanTimestamptzCodecBinaryEncode ⟨t, .negativeInfinity, true⟩ buf =
      .ok (some (buf ++ [128, 0, 0, 0, 0, 0, 0, 0])) ∧
    scanPlanBinaryTimestamptzToTimestamptzScannerScan
      (some [127, 255, 255, 255, 255, 255, 255, 255]) dst =
      (⟨goZeroTime, .infinity, true⟩, Option.none) ∧
    scanPlanBinaryTimestamptzToTimestamptzScannerScan
      (some [128, 0, 0, 0, 0, 0, 0, 0]) dst =
      (⟨goZeroTime, .negativeInfinity, true⟩, Option.none) ∧
    ((scanPlanBinaryTimestamptzToTimestamptzScannerScan (some src) dst).1.infinityModifier ≠
        .none →
      src = [127, 255, 255, 255, 255, 255, 255, 255] ∨ src = [128, 0, 0, 0, 0, 0, 0, 0]) := by
  refine ⟨?_, ?_, rfl, rfl, ?_⟩
  · unfold encodePlanTimestamptzCodecBinaryEncode Timestamptz.timestamptzValue pgioAppendInt64
    dsimp only
    rw [show toBytesBE8 (toUint64 infinityMicrosecondOffset) =
      [127, 255, 255, 255, 255, 255, 255, 255] from by decide]
    simp
  · unfold encodePlanTimestamptzCodecBinaryEncode Timestamptz.timestamptzValue pgioAppendInt64
    dsimp only
    rw [show toBytesBE8 (toUint64 negativeInfinityMicrosecondOffset) =
      [128, 0, 0, 0, 0, 0, 0, 0] from by decide]
    simp
  intro hne
  rcases src with _ | ⟨b0, src⟩
  · simp at h8
  rcases src with _ | ⟨b1, src⟩
  · simp at h8
  rcases src with _ | ⟨b2, src⟩
  · simp at h8
  rcases src with _ | ⟨b3, src⟩
  · simp at h8
  rcases src with _ | ⟨b4, src⟩
  · simp at h8
  rcases src with _ | ⟨b5, src⟩
  · simp at h8
  rcases src with _ | ⟨b6, src⟩
  · simp at h8
  rcases src with _ | ⟨b7, src⟩
  · simp at h8
  rcases src with _ | ⟨b8, src⟩
  swap
  · simp at h8
  have hb0 : b0 < 256 := hb _ (by simp)
  have hb1 : b1 < 256 := hb _ (by simp)
  have hb2 : b2 < 256 := hb _ (by simp)
  have hb3 : b3 < 256 := hb _ (by simp)
  have hb4 : b4 < 256 := hb _ (by simp)
  have hb5 : b5 < 256 := hb _ (by simp)
  have hb6 : b6 < 256 := hb _ (by simp)
  have hb7 : b7 < 256 := hb _ (by simp)
  have hMeq : beUint64 [b0, b1, b2, b3, b4, b5, b6, b7] =
      ((((((b0 * 256 + b1) * 256 + b2) * 256 + b3) * 256 + b4) * 256 + b5) * 256 + b6) *
        256 + b7 := by
    simp [beUint64, List.foldl]
  by_cases hc1 : toInt64 (beUint64 [b0, b1, b2, b3, b4, b5, b6, b7]) =
      infinityMicrosecondOffset
  · left
    have hM : beUint64 [b0, b1, b2, b3, b4, b5, b6, b7] = 9223372036854775807 := by
      unfold toInt64 infinityMicrosecondOffset at hc1
      split at hc1 <;> omega
    rw [hMeq] at hM
    have hbytes : b0 = 127 ∧ b1 = 255 ∧ b2 = 255 ∧ b3 = 255 ∧ b4 = 255 ∧ b5 = 255 ∧
        b6 = 255 ∧ b7 = 255 := by omega
    obtain ⟨e0, e1, e2, e3, e4, e5, e6, e7⟩ := hbytes
    subst e0; subst e1; subst e2; subst e3; subst e4; subst e5; subst e6; subst e7
    rfl
  by_cases hc2 : toInt64 (beUint64 [b0, b1, b2, b3, b4, b5, b6, b7]) =
      negativeInfinityMicrosecondOffset
  · right
    have hM : beUint64 [b0, b1, b2, b3, b4, b5, b6, b7] = 9223372036854775808 := by
      unfold toInt64 negativeInfinityMicrosecondOffset at hc2
      have hlt : beUint64 [b0, b1, b2, b3, b4, b5, b6, b7] < 18446744073709551616 := by
        rw [hMeq]; omega
      split at hc2 <;> omega
    rw [hMeq] at hM
    have hbytes : b0 = 128 ∧ b1 = 0 ∧ b2 = 0 ∧ b3 = 0 ∧ b4 = 0 ∧ b5 = 0 ∧
        b6 = 0 ∧ b7 = 0 := by omega
    obtain ⟨e0, e1, e2, e3, e4, e5, e6, e7⟩ := hbytes
    subst e0; subst e1; subst e2; subst e3; subst e4; subst e5; subst e6; subst e7
    rfl
  exfalso
  apply hne
  unfold scanPlanBinaryTimestamptzToTimestamptzScannerScan
  dsimp only
  rw [if_neg (by simp), if_neg hc1, if_neg hc2]

/-- Witness for timestamptz_infinity_sentinels at the plus-infinity
payload. -/
theorem timestamptz_infinity_sentinels_witness :
    encodePlanTimestamptzCodecBinaryEncode ⟨0, .infinity, true⟩ [] =
      .ok (some ([] ++ [127, 255, 255, 255, 255, 255, 255, 255])) ∧
    encodePlanTimestamptzCodecBinaryEncode ⟨0, .negativeInfinity, true⟩ [] =
      .ok (some ([] ++ [128, 0, 0, 0, 0, 0, 0, 0])) ∧
    scanPlanBinaryTimestamptzToTimestamptzScannerScan
      (some [127, 255, 255, 255, 255, 255, 255, 255]) zeroTimestamptz =
      (⟨goZeroTime, .infinity, true⟩, Option.none) ∧
    scanPlanBinaryTimestamptzToTimestamptzScannerScan
      (some [128, 0, 0, 0, 0, 0, 0, 0]) zeroTimestamptz =
      (⟨goZeroTime, .negativeInfinity, true⟩, Option.none) ∧
    ((scanPlanBinaryTimestamptzToTimestamptzScannerScan
        (some [127, 255, 255, 255, 255, 255, 255, 255]) zeroTimestamptz).1.infinityModifier ≠
        .none →
      [127, 255, 255, 255, 255, 255, 255, 255] = [127, 255, 255, 255, 255, 255, 255, 255] ∨
      [127, 255, 255, 255, 255, 255, 255, 255] = [128, 0, 0, 0, 0, 0, 0, 0]) :=
  timestamptz_infinity_sentinels 0 [] [127, 255, 255, 255, 255, 255, 255, 255]
    zeroTimestamptz (by decide) (by decide)

/-- Claim C4: for every in-range Timestamptz wrapper (NULL wrappers and
infinity modifiers included), scanning the binary encoding back through the
binary scan plan succeeds and yields a wrapper equal to the original as an
SQL value: NULL maps to NULL, each infinity modifier to itself, and a
non-sentinel value to the same instant. -/
theorem timestamptz_binary_round_trip (ts dst : Timestamptz) (h : tstzInRange ts) :
    ∃ p ts2, encodePlanTimestamptzCodecBinaryEncode ts [] = .ok p ∧
      scanPlanBinaryTimestamptzToTimestamptzScannerScan p dst = (ts2, Option.none) ∧
      tstzEquiv ts2 ts := by
  obtain ⟨t0, m0, v0⟩ := ts
  cases v0
  · refine ⟨Option.none, zeroTimestamptz, ?_, rfl, Or.inl ⟨rfl, rfl⟩⟩
    unfold encodePlanTimestamptzCodecBinaryEncode Timestamptz.timestamptzValue
    dsimp only
    simp
  cases m0
  · refine ⟨some [128, 0, 0, 0, 0, 0, 0, 0], ⟨goZeroTime, .negativeInfinity, true⟩, ?_, rfl,
      Or.inr ⟨rfl, rfl, rfl, fun hq => nomatch hq⟩⟩
    unfold encodePlanTimestamptzCodecBinaryEncode Timestamptz.timestamptzValue pgioAppendInt64
    dsimp only
    rw [show toBytesBE8 (toUint64 negativeInfinityMicrosecondOffset) =
      [128, 0, 0, 0, 0, 0, 0, 0] from by decide]
    simp
  · have hr := h rfl rfl
    obtain ⟨h1, h2, h3⟩ := hr
    dsimp only at h1 h2 h3
    set mu : Int := t0 / 1000 - 946684800000000 with hmu_def
    have hmu : wrap64 (wrap64 (wrap64 (timeUnix t0 * 1000000) + timeNanosecond t0 / 1000) -
        microsecFromUnixEpochToY2K) = mu := by
      unfold wrap64 timeUnix timeNanosecond microsecFromUnixEpochToY2K
      omega
    refine ⟨some (toBytesBE8 (toUint64 mu)), ⟨t0, .none, true⟩, ?_, ?_,
      Or.inr ⟨rfl, rfl, rfl, fun _ => rfl⟩⟩
    · unfold encodePlanTimestamptzCodecBinaryEncode Timestamptz.timestamptzValue
        pgioAppendInt64
      dsimp only
      rw [hmu]
      simp
    · unfold scanPlanBinaryTimestamptzToTimestamptzScannerScan
      dsimp only
      rw [if_neg (by simp [toBytesBE8_length])]
      rw [beUint64_toBytesBE8 _ (toUint64_lt mu), toInt64_toUint64 mu (by omega) (by omega)]
      rw [if_neg (show ¬(mu = infinityMicrosecondOffset) by
            unfold infinityMicrosecondOffset; omega),
          if_neg (show ¬(mu = negativeInfinityMicrosecondOffset) by
            unfold negativeInfinityMicrosecondOffset; omega)]
      have htdiv : Int.tdiv microsecFromUnixEpochToY2K 1000000 = 946684800 := by decide
      have htmod : Int.tmod microsecFromUnixEpochToY2K 1000000 = 0 := by decide
      have hid := Int.tdiv_add_tmod mu 1000000
      unfold timeUnixCons
      rw [htdiv, htmod]
      have htim : (946684800 + Int.tdiv mu 1000000) * 1000000000 +
          (0 * 1000 + Int.tmod mu 1000000 * 1000) = t0 := by
        omega
      rw [htim]
  · refine ⟨some [127, 255, 255, 255, 255, 255, 255, 255], ⟨goZeroTime, .infinity, true⟩, ?_,
      rfl, Or.inr ⟨rfl, rfl, rfl, fun hq => nomatch hq⟩⟩
    unfold encodePlanTimestamptzCodecBinaryEncode Timestamptz.timestamptzValue pgioAppendInt64
    dsimp only
    rw [show toBytesBE8 (toUint64 infinityMicrosecondOffset) =
      [127, 255, 255, 255, 255, 255, 255, 255] from by decide]
    simp

/-- Witness for timestamptz_binary_round_trip at the Unix epoch instant. -/
theorem timestamptz_binary_round_trip_witness :
    tstzInRange ⟨0, .none, true⟩ ∧
    (∃ p ts2, encodePlanTimestamptzCodecBinaryEncode ⟨0, .none, true⟩ [] = .ok p ∧
      scanPlanBinaryTimestamptzToTimestamptzScannerScan p zeroTimestamptz =
        (ts2, Option.none) ∧
      tstzEquiv ts2 ⟨0, .none, true⟩) :=
  ⟨by intro _ _; refine ⟨by decide, by decide, by decide⟩,
    timestamptz_binary_round_trip ⟨0, .none, true⟩ zeroTimestamptz
      (by intro _ _; refine ⟨by decide, by decide, by decide⟩)⟩

theorem toUint64_toInt64 (n : Nat) (h : n < 18446744073709551616) :
    toUint64 (toInt64 n) = n := by
  unfold toUint64 toInt64
  split <;> omega

theorem beUint64_lt8 (src : List Nat) (h8 : src.length = 8) (hb : ∀ x ∈ src, x < 256) :
    beUint64 src < 18446744073709551616 := by
  rcases src with _ | ⟨b0, src⟩
  · simp at h8
  rcases src with _ | ⟨b1, src⟩
  · simp at h8
  rcases src with _ | ⟨b2, src⟩
  · simp at h8
  rcases src with _ | ⟨b3, src⟩
  · simp at h8
  rcases src with _ | ⟨b4, src⟩
  · simp at h8
  rcases src with _ | ⟨b5, src⟩
  · simp at h8
  rcases src with _ | ⟨b6, src⟩
  · simp at h8
  rcases src with _ | ⟨b7, src⟩
  · simp at h8
  rcases src with _ | ⟨b8, src⟩
  swap
  · simp at h8
  have hb0 : b0 < 256 := hb _ (by simp)
  have hb1 : b1 < 256 := hb _ (by simp)
  have hb2 : b2 < 256 := hb _ (by simp)
  have hb3 : b3 < 256 := hb _ (by simp)
  have hb4 : b4 < 256 := hb _ (by simp)
  have hb5 : b5 < 256 := hb _ (by simp)
  have hb6 : b6 < 256 := hb _ (by simp)
  have hb7 : b7 < 256 := hb _ (by simp)
  simp [beUint64, List.foldl]
  omega

theorem findExp_spec (a : Nat) (h1 : 1 ≤ a) (h2 : a < 18446744073709551616) :
    2 ^ findExp a ≤ a ∧ a < 2 ^ (findExp a + 1) ∧ findExp a < 64 := by
  have key : ∀ n : Nat, 1 ≤ n →
      ((List.range n).foldl (fun acc i => if 2 ^ i ≤ a then i else acc) 0 < n ∧
       2 ^ ((List.range n).foldl (fun acc i => if 2 ^ i ≤ a then i else acc) 0) ≤ a ∧
       ∀ j, j < n → 2 ^ j ≤ a →
         j ≤ (List.range n).foldl (fun acc i => if 2 ^ i ≤ a then i else acc) 0) := by
    intro n hn
    induction n with
    | zero => omega
    | succ k ih =>
      by_cases hk : 1 ≤ k
      · obtain ⟨ihlt, ihle, ihmax⟩ := ih hk
        rw [List.range_succ, List.foldl_append, List.foldl_cons, List.foldl_nil]
        by_cases hc : 2 ^ k ≤ a
        · rw [if_pos hc]
          exact ⟨by omega, hc, fun j hj hja => by omega⟩
        · rw [if_neg hc]
          refine ⟨by omega, ihle, fun j hj hja => ?_⟩
          rcases Nat.lt_succ_iff_lt_or_eq.mp hj with h | h
          · exact ihmax j h hja
          · subst h
            exact absurd hja hc
      · have hk0 : k = 0 := by omega
        subst hk0
        rw [show List.range 1 = [0] by decide]
        simp only [List.foldl_cons, List.foldl_nil]
        rw [if_pos (by simpa using h1)]
        exact ⟨by omega, by simpa using h1, fun j hj _ => by omega⟩
  unfold findExp
  obtain ⟨hlt, hle, hmax⟩ := key 64 (by omega)
  refine ⟨hle, ?_, hlt⟩
  by_contra hcon
  push_neg at hcon
  set F := (List.range 64).foldl (fun acc i => if 2 ^ i ≤ a then i else acc) 0 with hF
  rcases (show F + 1 < 64 ∨ F + 1 = 64 by omega) with h | h
  · exact absurd (hmax (F + 1) h hcon) (by omega)
  · rw [h] at hcon
    norm_num at hcon
    omega

theorem float64Val_bitsOfInt_small (i : Int) (h0 : i ≠ 0)
    (hs : i.natAbs < 9007199254740992) :
    float64Val (float64bitsOfInt i) = (i : Rat) := by
  have ha1 : 1 ≤ i.natAbs := by omega
  obtain ⟨hle, hltk, h64⟩ := findExp_spec i.natAbs (by omega) (by omega)
  have hk52 : findExp i.natAbs ≤ 52 := by
    by_contra hcon
    have h53 : (2 : Nat) ^ 53 ≤ 2 ^ findExp i.natAbs :=
      Nat.pow_le_pow_right (by omega) (by omega)
    have he53 : (2 : Nat) ^ 53 = 9007199254740992 := by norm_num
    omega
  unfold float64bitsOfInt
  rw [if_neg h0]
  dsimp only
  rw [if_pos hk52]
  set a := i.natAbs with hadef
  set k := findExp a with hkdef
  set s : Nat := if i < 0 then 1 else 0 with hsdef
  have hX_lo : 4503599627370496 ≤ a * 2 ^ (52 - k) := by
    have hsplit : (2 : Nat) ^ k * 2 ^ (52 - k) = 2 ^ 52 := by
      rw [← pow_add]
      congr 1
      omega
    have h252 : (2 : Nat) ^ 52 = 4503599627370496 := by norm_num
    calc 4503599627370496 = 2 ^ k * 2 ^ (52 - k) := by rw [hsplit, h252]
      _ ≤ a * 2 ^ (52 - k) := Nat.mul_le_mul_right _ hle
  have hX_hi : a * 2 ^ (52 - k) < 9007199254740992 := by
    have hsplit : (2 : Nat) ^ (k + 1) * 2 ^ (52 - k) = 2 ^ 53 := by
      rw [← pow_add]
      congr 1
      omega
    have h253 : (2 : Nat) ^ 53 = 9007199254740992 := by norm_num
    calc a * 2 ^ (52 - k) < 2 ^ (k + 1) * 2 ^ (52 - k) :=
          (Nat.mul_lt_mul_right (by positivity)).mpr hltk
      _ = 9007199254740992 := by rw [hsplit, h253]
  have hs01 : s = 0 ∨ s = 1 := by
    rw [hsdef]
    split <;> simp
  have hfield_s : (s * 9223372036854775808 + (1023 + k) * 4503599627370496 +
      (a * 2 ^ (52 - k) - 4503599627370496)) / 9223372036854775808 = s := by
    rcases hs01 with h | h <;> rw [h] <;> omega
  have hfield_e : (s * 9223372036854775808 + (1023 + k) * 4503599627370496 +
      (a * 2 ^ (52 - k) - 4503599627370496)) / 4503599627370496 % 2048 = 1023 + k := by
    rcases hs01 with h | h <;> rw [h] <;> omega
  have hfield_m : (s * 9223372036854775808 + (1023 + k) * 4503599627370496 +
      (a * 2 ^ (52 - k) - 4503599627370496)) % 4503599627370496 =
      a * 2 ^ (52 - k) - 4503599627370496 := by
    rcases hs01 with h | h <;> rw [h] <;> omega
  unfold float64Val
  dsimp only
  rw [hfield_s, hfield_e, hfield_m]
  rw [if_neg (show ¬(1023 + k = 0) by omega)]
  have hback : (4503599627370496 + (a * 2 ^ (52 - k) - 4503599627370496) : Nat) =
      a * 2 ^ (52 - k) := by omega
  rw [hback]
  have hzpow : (2 : Rat) ^ (((1023 + k : Nat) : Int) - 1075) =
      (((2 : Nat) ^ (52 - k) : Nat) : Rat)⁻¹ := by
    rw [show ((1023 + k : Nat) : Int) - 1075 = -((52 - k : Nat) : Int) by omega]
    rw [zpow_neg, zpow_natCast]
    push_cast
    ring
  rw [hzpow]
  have hcancel : ((a * 2 ^ (52 - k) : Nat) : Rat) * (((2 : Nat) ^ (52 - k) : Nat) : Rat)⁻¹ =
      (a : Rat) := by
    push_cast
    rw [mul_inv_cancel_right₀ (by positivity)]
  rw [hcancel]
  rcases hs01 with h | h
  · rw [h, if_pos rfl]
    have hpos : ¬ i < 0 := by
      intro hc
      rw [hsdef, if_pos hc] at h
      omega
    rw [hadef, Int.cast_natAbs, abs_of_nonneg (not_lt.mp hpos)]
  · rw [h, if_neg (by omega : ¬(1 : Nat) = 0)]
    have hneg : i < 0 := by
      by_contra hc
      rw [hsdef, if_neg hc] at h
      omega
    rw [hadef, Int.cast_natAbs, abs_of_neg hneg]
    push_cast
    ring

theorem float64Eq_trunc_exact (b : Nat) (hlt : b < 18446744073709551616)
    (heq : float64Eq b (float64bitsOfInt (float64TruncToInt64 b)) = true) :
    float64Val b = ((float64TruncToInt64 b : Int) : Rat) := by
  unfold float64Eq at heq
  split at heq
  · simp at heq
  split at heq
  · next hz =>
    have hb0 : b = 0 ∨ b = 9223372036854775808 := by
      simp at hz
      tauto
    rcases hb0 with h | h <;> subst h
    · rw [show float64TruncToInt64 0 = 0 from rfl]
      simp [float64Val]
    · rw [show float64TruncToInt64 9223372036854775808 = 0 from rfl]
      simp [float64Val]
  · next hnz =>
    have hb2 : b = float64bitsOfInt (float64TruncToInt64 b) := by simpa using heq
    clear heq hnz
    set e := b / 4503599627370496 % 2048 with hedef
    set m := b % 4503599627370496 with hmdef
    have hmlt : m < 4503599627370496 := by rw [hmdef]; omega
    have hs01 : b / 9223372036854775808 = 0 ∨ b / 9223372036854775808 = 1 := by omega
    by_cases he2047 : e = 2047
    · exfalso
      have htr : float64TruncToInt64 b = -9223372036854775808 := by
        unfold float64TruncToInt64
        dsimp only
        rw [← hedef, if_pos he2047]
      rw [htr] at hb2
      have hCe : float64bitsOfInt (-9223372036854775808) / 4503599627370496 % 2048 = 1086 := by
        decide
      rw [hb2] at hedef
      omega
    by_cases helow : e < 1023
    · have htr : float64TruncToInt64 b = 0 := by
        unfold float64TruncToInt64
        dsimp only
        rw [← hedef, if_neg he2047, if_pos helow]
      rw [htr] at hb2 ⊢
      rw [show float64bitsOfInt 0 = 0 from rfl] at hb2
      rw [hb2]
      simp [float64Val]
    push_neg at helow
    by_cases hediv : e ≤ 1075
    · -- truncation by division: the stored integer has magnitude below 2^53,
      -- so the rounding back is exact and the pattern equality forces the value
      set d := (4503599627370496 + m) / 2 ^ (1075 - e) with hddef
      have hd1 : 1 ≤ d := by
        rw [hddef]
        have hple : (2 : Nat) ^ (1075 - e) ≤ 2 ^ 52 := Nat.pow_le_pow_right (by omega) (by omega)
        have h252 : (2 : Nat) ^ 52 = 4503599627370496 := by norm_num
        have hpos : 0 < (2 : Nat) ^ (1075 - e) := by positivity
        rw [Nat.one_le_div_iff hpos]
        omega
      have hdlt : d < 9007199254740992 := by
        have hself := Nat.div_le_self (4503599627370496 + m) (2 ^ (1075 - e))
        omega
      rcases hs01 with hS | hS
      · have htr : float64TruncToInt64 b = (d : Int) := by
          unfold float64TruncToInt64
          dsimp only
          rw [← hedef, ← hmdef, if_neg he2047, if_neg (by omega : ¬ e < 1023),
            if_pos hediv, ← hddef, if_pos hS, if_neg (by omega)]
        rw [htr] at hb2 ⊢
        rw [hb2]
        exact float64Val_bitsOfInt_small _ (by omega) (by omega)
      · have htr : float64TruncToInt64 b = -(d : Int) := by
          unfold float64TruncToInt64
          dsimp only
          rw [← hedef, ← hmdef, if_neg he2047, if_neg (by omega : ¬ e < 1023),
            if_pos hediv, ← hddef, if_neg (by omega : ¬ b / 9223372036854775808 = 0),
            if_neg (by omega)]
        rw [htr] at hb2 ⊢
        rw [hb2]
        exact float64Val_bitsOfInt_small _ (by omega) (by omega)
    · -- integral value: the double is exactly an integer and truncation is exact
      push_neg at hediv
      set magN := (4503599627370496 + m) * 2 ^ (e - 1075) with hmagdef
      have hzpow : (2 : Rat) ^ ((e : Int) - 1075) = (((2 : Nat) ^ (e - 1075) : Nat) : Rat) := by
        rw [show ((e : Nat) : Int) - 1075 = ((e - 1075 : Nat) : Int) by omega, zpow_natCast]
        push_cast
        ring
      rcases hs01 with hS | hS
      · by_cases hrange : ((magN : Int) < -9223372036854775808 ∨
            9223372036854775807 < (magN : Int))
        · exfalso
          have htr : float64TruncToInt64 b = -9223372036854775808 := by
            unfold float64TruncToInt64
            dsimp only
            rw [← hedef, ← hmdef, if_neg he2047, if_neg (by omega : ¬ e < 1023),
              if_neg (by omega : ¬ e ≤ 1075), ← hmagdef, if_pos hS, if_pos hrange]
          rw [htr] at hb2
          have hCs : float64bitsOfInt (-9223372036854775808) / 9223372036854775808 = 1 := by
            decide
          rw [hb2] at hS
          omega
        · have htr : float64TruncToInt64 b = (magN : Int) := by
            unfold float64TruncToInt64
            dsimp only
            rw [← hedef, ← hmdef, if_neg he2047, if_neg (by omega : ¬ e < 1023),
              if_neg (by omega : ¬ e ≤ 1075), ← hmagdef, if_pos hS, if_neg hrange]
          rw [htr]
          unfold float64Val
          dsimp only
          rw [← hedef, ← hmdef, if_neg (by omega : ¬ e = 0), if_pos hS]
          rw [hzpow, hmagdef]
          push_cast
          ring
      · by_cases hrange : (-(magN : Int) < -9223372036854775808 ∨
            9223372036854775807 < -(magN : Int))
        · exfalso
          have htr : float64TruncToInt64 b = -9223372036854775808 := by
            unfold float64TruncToInt64
            dsimp only
            rw [← hedef, ← hmdef, if_neg he2047, if_neg (by omega : ¬ e < 1023),
              if_neg (by omega : ¬ e ≤ 1075), ← hmagdef,
              if_neg (by omega : ¬ b / 9223372036854775808 = 0), if_pos hrange]
          rw [htr] at hb2
          have hCe : float64bitsOfInt (-9223372036854775808) / 4503599627370496 % 2048 =
              1086 := by decide
          have hCm : float64bitsOfInt (-9223372036854775808) % 4503599627370496 = 0 := by
            decide
          rw [hb2] at hedef hmdef
          have he' : e = 1086 := by omega
          have hm' : m = 0 := by omega
          have hmag' : magN = 9223372036854775808 := by
            rw [hmagdef, he', hm']
            norm_num
          rw [hmag'] at hrange
          rcases hrange with h | h <;> omega
        · have htr : float64TruncToInt64 b = -(magN : Int) := by
            unfold float64TruncToInt64
            dsimp only
            rw [← hedef, ← hmdef, if_neg he2047, if_neg (by omega : ¬ e < 1023),
              if_neg (by omega : ¬ e ≤ 1075), ← hmagdef,
              if_neg (by omega : ¬ b / 9223372036854775808 = 0), if_neg hrange]
          rw [htr]
          unfold float64Val
          dsimp only
          rw [← hedef, ← hmdef, if_neg (by omega : ¬ e = 0),
            if_neg (by omega : ¬ b / 9223372036854775808 = 0)]
          rw [hzpow, hmagdef]
          push_cast
          ring

/-- Claim C7: scanning an 8-byte binary float8 payload into an
Int64-accepting target: when the decoded double does not compare equal to
the double obtained by casting its int64 truncation back, the scan returns
the lossy-conversion error and leaves the target unchanged; otherwise the
scan succeeds and the target receives an integer whose value is exactly the
rational value of the decoded double. -/
theorem float8_to_int64_scan_lossy (src : List Nat) (dst : PgInt8)
    (h8 : src.length = 8) (hb : ∀ x ∈ src, x < 256) :
    (float64Eq (beUint64 src)
        (float64bitsOfInt (float64TruncToInt64 (beUint64 src))) = false →
      scanPlanBinaryFloat8ToInt64ScannerScan (some src) dst =
        (dst, some "cannot losslessly convert to int64")) ∧
    (float64Eq (beUint64 src)
        (float64bitsOfInt (float64TruncToInt64 (beUint64 src))) = true →
      scanPlanBinaryFloat8ToInt64ScannerScan (some src) dst =
        (⟨float64TruncToInt64 (beUint64 src), true⟩, Option.none) ∧
      float64Val (beUint64 src) = ((float64TruncToInt64 (beUint64 src) : Int) : Rat)) := by
  have hlt : beUint64 src < 18446744073709551616 := beUint64_lt8 src h8 hb
  have hcast : toUint64 (toInt64 (beUint64 src)) = beUint64 src := toUint64_toInt64 _ hlt
  constructor
  · intro hne
    unfold scanPlanBinaryFloat8ToInt64ScannerScan
    dsimp only
    rw [if_neg (by simp [h8]), hcast, hne, if_pos rfl]
  · intro heq
    refine ⟨?_, float64Eq_trunc_exact (beUint64 src) hlt heq⟩
    unfold scanPlanBinaryFloat8ToInt64ScannerScan
    dsimp only
    rw [if_neg (by simp [h8]), hcast, heq, if_neg (by simp)]

/-- Witness for float8_to_int64_scan_lossy at the binary encoding of the
double 3.0, which scans losslessly to the integer 3. -/
theorem float8_to_int64_scan_lossy_witness :
    (float64Eq (beUint64 [64, 8, 0, 0, 0, 0, 0, 0])
        (float64bitsOfInt (float64TruncToInt64 (beUint64 [64, 8, 0, 0, 0, 0, 0, 0]))) =
          false →
      scanPlanBinaryFloat8ToInt64ScannerScan (some [64, 8, 0, 0, 0, 0, 0, 0]) ⟨0, false⟩ =
        (⟨0, false⟩, some "cannot losslessly convert to int64")) ∧
    (float64Eq (beUint64 [64, 8, 0, 0, 0, 0, 0, 0])
        (float64bitsOfInt (float64TruncToInt64 (beUint64 [64, 8, 0, 0, 0, 0, 0, 0]))) =
          true →
      scanPlanBinaryFloat8ToInt64ScannerScan (some [64, 8, 0, 0, 0, 0, 0, 0]) ⟨0, false⟩ =
        (⟨float64TruncToInt64 (beUint64 [64, 8, 0, 0, 0, 0, 0, 0]), true⟩, Option.none) ∧
      float64Val (beUint64 [64, 8, 0, 0, 0, 0, 0, 0]) =
        ((float64TruncToInt64 (beUint64 [64, 8, 0, 0, 0, 0, 0, 0]) : Int) : Rat)) :=
  float8_to_int64_scan_lossy [64, 8, 0, 0, 0, 0, 0, 0] ⟨0, false⟩ (by decide) (by decide)
